import Mathlib

/-!
Shallow embedding of the Zion hotstuff validator set
(consensus/hotstuff/validator/default.go).

An address (go-ethereum common.Address) is a 20-byte value compared
byte-lexicographically, which is order-isomorphic to its big-endian numeric
value; we model it as a natural number.  The zero address is 0.
Round numbers and indices are Go uint64 values; where a sum can exceed
2^64 - 1 the embedding reduces modulo 2^64, exactly as Go wrapping does.
-/

/-- Address model: a 20-byte identity, as its big-endian numeric value. -/
abbrev Address : Type := Nat

/-- Width of Go uint64 arithmetic. -/
def U64 : Nat := 2 ^ 64

/-- Validator entity (struct defaultValidator): a single address field. -/
structure Validator where
  address : Address
  deriving DecidableEq

/-- Modelled from the spec: the constructor New (package validator, its file
is not under src/) wraps an address into a defaultValidator. -/
def New (addr : Address) : Validator := ⟨addr⟩

/-- Proposer-selection policy (hotstuff.SelectProposerPolicy constants). -/
inductive SelectProposerPolicy where
  | RoundRobin
  | Sticky
  | VRF
  deriving DecidableEq

/-- Modelled from the spec: the order used by sort.Sort on
hotstuff.Validators (its Less method is not under src/) is the
byte-lexicographic order on addresses, i.e. numeric order in this model. -/
def validatorLE (v w : Validator) : Prop := v.address ≤ w.address

instance : DecidableRel validatorLE := fun v w => Nat.decLe v.address w.address

instance : IsTotal Validator validatorLE := ⟨fun v w => Nat.le_total v.address w.address⟩

instance : IsTrans Validator validatorLE := ⟨fun _ _ _ h h' => Nat.le_trans h h'⟩

instance : IsAntisymm Validator validatorLE :=
  ⟨fun v w h h' => by cases v; cases w; exact congrArg Validator.mk (Nat.le_antisymm h h')⟩

/-- Sorting of the validators slice.  Go's sort.Sort result is some sorted
permutation; since a Validator is exactly its address, every sorted
permutation of a given multiset is the same list of values, so insertion
sort is a faithful model. -/
def sortValidators (l : List Validator) : List Validator :=
  List.insertionSort validatorLE l

/-- The validator-set container (struct defaultSet).  The selector field is
determined by the policy field and is folded into CalcProposer below; the
mutex has no observable effect on sequential behaviour. -/
structure DefaultSet where
  validators : List Validator
  policy : SelectProposerPolicy
  proposer : Option Validator
  deriving DecidableEq

/-- Constructor newDefaultSet: wrap each address, sort, and cache the first
member (if any) as initial proposer. -/
def newDefaultSet (addrs : List Address) (policy : SelectProposerPolicy) : DefaultSet :=
  let vals := sortValidators (addrs.map New)
  { validators := vals, policy := policy, proposer := vals[0]? }

/-- Size(): length of the validators slice. -/
def Size (vs : DefaultSet) : Nat := vs.validators.length

/-- AddressList(): the members' addresses in storage order. -/
def AddressList (vs : DefaultSet) : List Address := vs.validators.map (·.address)

/-- GetByIndex(i): the validator at index i, or nil when i is out of range. -/
def GetByIndex (vs : DefaultSet) (i : Nat) : Option Validator := vs.validators[i]?

/-- Loop body of GetByAddress: first index (from i) holding the address. -/
def findValidator : List Validator → Address → Nat → Option (Nat × Validator)
  | [], _, _ => none
  | v :: rest, addr, i =>
      if v.address = addr then some (i, v) else findValidator rest addr (i + 1)

/-- GetByAddress(addr): linear scan for the first member with the address;
Go's miss result (-1, nil) is modelled as none. -/
def GetByAddress (vs : DefaultSet) (addr : Address) : Option (Nat × Validator) :=
  findValidator vs.validators addr 0

/-- GetProposer(): the cached proposer (nil modelled as none). -/
def GetProposer (vs : DefaultSet) : Option Validator := vs.proposer

/-- IsProposer(addr): reflect.DeepEqual(GetProposer(), val) where val is the
second component of GetByAddress.  DeepEqual of two interface values is true
when both are nil, false when exactly one is nil, and field-by-field equality
of the pointed-to one-field structs otherwise — exactly equality of the two
Option Validator values. -/
def IsProposer (vs : DefaultSet) (addr : Address) : Bool :=
  decide (GetProposer vs = (GetByAddress vs addr).map Prod.snd)

/-- CalcProposerByIndex(index): for index > 1 store the member at
(index - 1) mod Size, otherwise the member at 0.  On the empty set Go faults
at runtime (modulo by zero for index > 1, index out of range otherwise);
the fault is modelled as none. -/
def CalcProposerByIndex (vs : DefaultSet) (index : Nat) : Option DefaultSet :=
  if 1 < index then
    if vs.validators.length = 0 then none
    else
      match vs.validators[(index - 1) % vs.validators.length]? with
      | some v => some { vs with proposer := some v }
      | none => none
  else
    match vs.validators[0]? with
    | some v => some { vs with proposer := some v }
    | none => none

/-- emptyAddress: comparison against the zero address. -/
def emptyAddress (addr : Address) : Bool := addr == 0

/-- calcSeed: offset is the found index of the proposer (0 on a miss), plus
the round, in uint64 arithmetic. -/
def calcSeed (vs : DefaultSet) (proposer : Address) (round : Nat) : Nat :=
  let offset : Nat :=
    match GetByAddress vs proposer with
    | some iv => iv.1
    | none => 0
  (offset + round) % U64

/-- roundRobinSelector: nil on the empty set; otherwise pick
seed mod Size where seed is round for the zero address and
calcSeed + 1 otherwise. -/
def roundRobinSelector (vs : DefaultSet) (proposer : Address) (round : Nat) :
    Option Validator :=
  if Size vs = 0 then none
  else
    let seed : Nat :=
      if emptyAddress proposer then round else (calcSeed vs proposer round + 1) % U64
    GetByIndex vs (seed % Size vs)

/-- stickySelector: as roundRobinSelector but without the + 1 offset. -/
def stickySelector (vs : DefaultSet) (proposer : Address) (round : Nat) :
    Option Validator :=
  if Size vs = 0 then none
  else
    let seed : Nat :=
      if emptyAddress proposer then round else calcSeed vs proposer round
    GetByIndex vs (seed % Size vs)

/-- vrfSelector: unimplemented, always nil. -/
def vrfSelector (_ : DefaultSet) (_ : Address) (_ : Nat) : Option Validator := none

/-- The selector installed by newDefaultSet for each policy. -/
def selector (p : SelectProposerPolicy) :
    DefaultSet → Address → Nat → Option Validator :=
  match p with
  | .RoundRobin => roundRobinSelector
  | .Sticky => stickySelector
  | .VRF => vrfSelector

/-- CalcProposer(lastProposer, round): store the selector's pick (possibly
nil) as the cached proposer. -/
def CalcProposer (vs : DefaultSet) (lastProposer : Address) (round : Nat) : DefaultSet :=
  { vs with proposer := selector vs.policy vs lastProposer round }

/-- AddValidator loop on the raw slice: reject a present address, otherwise
append and re-sort. -/
def addValidatorList (l : List Validator) (addr : Address) : List Validator × Bool :=
  if l.any (fun v => v.address == addr) then (l, false)
  else (sortValidators (l ++ [New addr]), true)

/-- AddValidator(address). -/
def AddValidator (vs : DefaultSet) (addr : Address) : DefaultSet × Bool :=
  let r := addValidatorList vs.validators addr
  ({ vs with validators := r.1 }, r.2)

/-- RemoveValidator loop on the raw slice: splice out the first member with
the address (List.eraseP) and report whether one was found. -/
def removeValidatorList (l : List Validator) (addr : Address) : List Validator × Bool :=
  if l.any (fun v => v.address == addr) then (l.eraseP (fun v => v.address == addr), true)
  else (l, false)

/-- RemoveValidator(address). -/
def RemoveValidator (vs : DefaultSet) (addr : Address) : DefaultSet × Bool :=
  let r := removeValidatorList vs.validators addr
  ({ vs with validators := r.1 }, r.2)

/-- Copy(): collect the addresses in order and rebuild through NewSet.
Modelled from the spec: NewSet (not under src/) builds a new set from an
address list and a policy, i.e. it is newDefaultSet. -/
def Copy (vs : DefaultSet) : DefaultSet := newDefaultSet (AddressList vs) vs.policy

/-- ParticipantsNumber(list): how many entries of the list are members
(each list entry is counted on its own, as in the Go loop). -/
def ParticipantsNumber (vs : DefaultSet) (list : List Address) : Nat :=
  list.countP (fun a => (GetByAddress vs a).isSome)

/-- F() numerator: Go computes int(math.Ceil(float64(n)/3)) - 1.  For every
attainable slice length the float64 division and Ceil are exact, so the
value is the natural ceiling division (n + 2) / 3, minus one (an Int: it is
-1 for the empty set). -/
def Fn (n : Nat) : Int := (((n + 2) / 3 : Nat) : Int) - 1

/-- Q() numerator. -/
def Qn (n : Nat) : Int := (n : Int) - Fn n

/-- F(): fault bound of the current set. -/
def F (vs : DefaultSet) : Int := Fn (Size vs)

/-- Q(): quorum bound of the current set. -/
def Q (vs : DefaultSet) : Int := Qn (Size vs)

/-- The removal loop of CheckQuorum: try to remove each committer in turn,
counting the successful removals. -/
def removeSealsList : List Validator → List Address → List Validator × Nat
  | l, [] => (l, 0)
  | l, a :: rest =>
      let r := removeValidatorList l a
      let r' := removeSealsList r.1 rest
      (r'.1, r'.2 + (if r.2 then 1 else 0))

/-- Error value ErrInvalidParticipant of default.go. -/
inductive QuorumError where
  | ErrInvalidParticipant
  deriving DecidableEq

/-- CheckQuorum(committers): run the removal loop on an independent copy and
fail with ErrInvalidParticipant when validSeal <= Q() of what remains of the
copy. -/
def CheckQuorum (vs : DefaultSet) (committers : List Address) : Option QuorumError :=
  let c := Copy vs
  let r := removeSealsList c.validators committers
  if (r.2 : Int) ≤ Qn r.1.length then some .ErrInvalidParticipant else none

/-- Cmp(src): n = ParticipantsNumber(src.AddressList()) must equal both
sizes. -/
def Cmp (vs src : DefaultSet) : Bool :=
  let n := ParticipantsNumber vs (AddressList src)
  if n ≠ Size vs ∨ n ≠ Size src then false else true

/-- A membership mutation, for stating invariants over call sequences. -/
inductive MutOp where
  | add (a : Address)
  | remove (a : Address)

/-- Apply one mutation, keeping the resulting set. -/
def applyOp (vs : DefaultSet) : MutOp → DefaultSet
  | .add a => (AddValidator vs a).1
  | .remove a => (RemoveValidator vs a).1

/-- Apply a sequence of mutations in order. -/
def applyOps (vs : DefaultSet) (ops : List MutOp) : DefaultSet :=
  ops.foldl applyOp vs

/-- Strict ascent of an address list (sorted with no duplicates). -/
def StrictAscending (l : List Address) : Prop := l.Sorted (· < ·)

instance : DecidablePred StrictAscending := fun l =>
  inferInstanceAs (Decidable (l.Pairwise (· < ·)))

/-! Theorems. -/

lemma Fn_eq_ceil (n : Nat) : Fn n = ⌈(n : ℚ) / 3⌉ - 1 := by
  set k : Nat := (n + 2) / 3 with hk
  have h1 : 3 * k ≤ n + 2 := by omega
  have h2 : n + 2 < 3 * k + 3 := by omega
  have h3 : (0 : ℚ) < 3 := by norm_num
  have h1q : 3 * (k : ℚ) ≤ (n : ℚ) + 2 := by exact_mod_cast h1
  have h4 : n ≤ 3 * k := by omega
  have h4q : (n : ℚ) ≤ 3 * (k : ℚ) := by exact_mod_cast h4
  have hkq : ((k : ℤ) : ℚ) = (k : ℚ) := by norm_cast
  have hc : ⌈(n : ℚ) / 3⌉ = (k : Int) := by
    rw [Int.ceil_eq_iff]
    constructor
    · rw [lt_div_iff₀ h3, hkq]
      linarith
    · rw [div_le_iff₀ h3, hkq]
      linarith
  unfold Fn
  rw [hc]

/-- Set of size ten, for the quorum-arithmetic table. -/
def set10 : DefaultSet := newDefaultSet [1, 2, 3, 4, 5, 6, 7, 8, 9, 10] .RoundRobin

/-- C2 counterexample: on a set of size 10 the code yields F = 3 and Q = 7,
not the claimed F = 2 and Q = 8. -/
theorem fault_quorum_size_ten_counterexample :
    Size set10 = 10 ∧ F set10 = 3 ∧ Q set10 = 7 ∧ ¬(F set10 = 2 ∧ Q set10 = 8) := by
  decide

/-- C2 (amended): for every validator set F() = ceil(Size()/3) - 1 and
Q() = Size() - F(); the size-to-(F,Q) table is size 1 -> (0,1),
size 4 -> (1,3), size 7 -> (2,5), and size 10 -> (3,7). -/
theorem fault_quorum_arithmetic :
    (∀ vs : DefaultSet, F vs = ⌈(Size vs : ℚ) / 3⌉ - 1 ∧ Q vs = (Size vs : Int) - F vs)
    ∧ (∀ vs : DefaultSet, Size vs = 1 → F vs = 0 ∧ Q vs = 1)
    ∧ (∀ vs : DefaultSet, Size vs = 4 → F vs = 1 ∧ Q vs = 3)
    ∧ (∀ vs : DefaultSet, Size vs = 7 → F vs = 2 ∧ Q vs = 5)
    ∧ (∀ vs : DefaultSet, Size vs = 10 → F vs = 3 ∧ Q vs = 7) := by
  refine ⟨fun vs => ⟨Fn_eq_ceil _, rfl⟩, ?_, ?_, ?_, ?_⟩ <;>
    · intro vs h
      unfold F Q
      rw [h]
      decide

/-- C2 witness: the arithmetic theorem evaluated on the concrete set of
size 10. -/
theorem fault_quorum_arithmetic_witness :
    Size set10 = 10 ∧ F set10 = 3 ∧ Q set10 = 7 :=
  ⟨by decide, (fault_quorum_arithmetic.2.2.2.2 set10 (by decide)).1,
    (fault_quorum_arithmetic.2.2.2.2 set10 (by decide)).2⟩

/-- C5: on a non-empty set, CalcProposerByIndex stores the member at
effective index (index - 1) mod Size() when index > 1, and the member at
index 0 when index <= 1. -/
theorem CalcProposerByIndex_spec (vs : DefaultSet) (h : vs.validators ≠ []) (index : Nat) :
    (1 < index → ∃ v, GetByIndex vs ((index - 1) % Size vs) = some v ∧
        CalcProposerByIndex vs index = some { vs with proposer := some v })
    ∧ (index ≤ 1 → ∃ v, GetByIndex vs 0 = some v ∧
        CalcProposerByIndex vs index = some { vs with proposer := some v }) := by
  have hpos : 0 < vs.validators.length := List.length_pos.mpr h
  constructor
  · intro hi
    have hlt : (index - 1) % vs.validators.length < vs.validators.length :=
      Nat.mod_lt _ hpos
    refine ⟨vs.validators[(index - 1) % vs.validators.length], ?_, ?_⟩
    · simp [GetByIndex, Size, List.getElem?_eq_getElem hlt]
    · simp [CalcProposerByIndex, hi, Nat.pos_iff_ne_zero.mp hpos, Size,
        List.getElem?_eq_getElem hlt]
  · intro hi
    refine ⟨vs.validators[0], ?_, ?_⟩
    · simp [GetByIndex, List.getElem?_eq_getElem hpos]
    · simp [CalcProposerByIndex, Nat.not_lt.mpr hi, List.getElem?_eq_getElem hpos]

/-- C5 witness: the index mapping evaluated on a concrete three-member set
at index 5 (effective index (5-1) mod 3 = 1) and at index 0. -/
theorem CalcProposerByIndex_spec_witness :
    (∃ v, GetByIndex (newDefaultSet [1, 2, 3] .RoundRobin) ((5 - 1) % Size (newDefaultSet [1, 2, 3] .RoundRobin)) = some v ∧
        CalcProposerByIndex (newDefaultSet [1, 2, 3] .RoundRobin) 5 =
          some { newDefaultSet [1, 2, 3] .RoundRobin with proposer := some v })
    ∧ (∃ v, GetByIndex (newDefaultSet [1, 2, 3] .RoundRobin) 0 = some v ∧
        CalcProposerByIndex (newDefaultSet [1, 2, 3] .RoundRobin) 0 =
          some { newDefaultSet [1, 2, 3] .RoundRobin with proposer := some v }) :=
  ⟨(CalcProposerByIndex_spec (newDefaultSet [1, 2, 3] .RoundRobin) (by decide) 5).1 (by decide),
   (CalcProposerByIndex_spec (newDefaultSet [1, 2, 3] .RoundRobin) (by decide) 0).2 (by decide)⟩

/-- C6: at the failing input (the empty constructed set, whose cached
proposer is nil, queried with address 1 which is no member) IsProposer
returns true, because reflect.DeepEqual(nil, nil) is true; value equality
on the proposer identity would give false, there being no proposer. -/
theorem IsProposer_empty_set_deep_equal_bug :
    GetProposer (newDefaultSet [] .RoundRobin) = none ∧
    GetByAddress (newDefaultSet [] .RoundRobin) 1 = none ∧
    IsProposer (newDefaultSet [] .RoundRobin) 1 = true := by
  decide

/-- C9: on an empty validator set CalcProposerByIndex faults for every index
(modelled as none), while CalcProposer stores the selector's nil result. -/
theorem CalcProposerByIndex_empty_undefined (vs : DefaultSet) (h : vs.validators = []) :
    (∀ index, CalcProposerByIndex vs index = none) ∧
    (∀ lastProposer round, (CalcProposer vs lastProposer round).proposer = none) := by
  constructor
  · intro index
    simp only [CalcProposerByIndex, h]
    split <;> simp
  · intro lp round
    cases hp : vs.policy <;>
      simp [CalcProposer, selector, hp, roundRobinSelector, stickySelector,
        vrfSelector, Size, h]

/-- C9 witness: the emptiness behaviour evaluated at concrete inputs. -/
theorem CalcProposerByIndex_empty_undefined_witness :
    CalcProposerByIndex (newDefaultSet [] .Sticky) 3 = none ∧
    (CalcProposer (newDefaultSet [] .Sticky) 4 9).proposer = none :=
  ⟨(CalcProposerByIndex_empty_undefined (newDefaultSet [] .Sticky) (by decide)).1 3,
   (CalcProposerByIndex_empty_undefined (newDefaultSet [] .Sticky) (by decide)).2 4 9⟩

lemma Size_ne_zero {vs : DefaultSet} (hne : vs.validators ≠ []) : Size vs ≠ 0 := by
  simpa [Size, List.length_eq_zero] using hne

lemma selector_zero_case (vs : DefaultSet) (hne : vs.validators ≠ []) (round : Nat) :
    roundRobinSelector vs 0 round = GetByIndex vs (round % Size vs) ∧
    stickySelector vs 0 round = GetByIndex vs (round % Size vs) := by
  have hsz := Size_ne_zero hne
  constructor <;> simp [roundRobinSelector, stickySelector, emptyAddress, hsz]

lemma selector_member_case (vs : DefaultSet) (hne : vs.validators ≠ []) (round : Nat)
    (lp : Address) (i : Nat) (v : Validator) (hlp : lp ≠ 0)
    (hfind : GetByAddress vs lp = some (i, v)) (hov : i + round + 1 < U64) :
    roundRobinSelector vs lp round = GetByIndex vs ((i + round + 1) % Size vs) ∧
    stickySelector vs lp round = GetByIndex vs ((i + round) % Size vs) := by
  have hsz := Size_ne_zero hne
  have he : emptyAddress lp = false := by simp [emptyAddress, hlp]
  have hcs : calcSeed vs lp round = (i + round) % U64 := by
    simp [calcSeed, hfind]
  have hlt : i + round < U64 := by omega
  constructor
  · simp [roundRobinSelector, hsz, he, hcs, Nat.mod_eq_of_lt hlt, Nat.mod_eq_of_lt hov]
  · simp [stickySelector, hsz, he, hcs, Nat.mod_eq_of_lt hlt]

lemma selector_miss_case (vs : DefaultSet) (hne : vs.validators ≠ []) (round : Nat)
    (lp : Address) (hlp : lp ≠ 0) (hmiss : GetByAddress vs lp = none)
    (hov : round + 1 < U64) :
    roundRobinSelector vs lp round = GetByIndex vs ((round + 1) % Size vs) ∧
    stickySelector vs lp round = GetByIndex vs (round % Size vs) := by
  have hsz := Size_ne_zero hne
  have he : emptyAddress lp = false := by simp [emptyAddress, hlp]
  have hcs : calcSeed vs lp round = round % U64 := by
    simp [calcSeed, hmiss]
  have hlt : round < U64 := by omega
  constructor
  · simp [roundRobinSelector, hsz, he, hcs, Nat.mod_eq_of_lt hlt, Nat.mod_eq_of_lt hov]
  · simp [stickySelector, hsz, he, hcs, Nat.mod_eq_of_lt hlt]

lemma head_getByAddress (vs : DefaultSet) (v0 : Validator)
    (hh : vs.validators.head? = some v0) : GetByAddress vs v0.address = some (0, v0) := by
  cases hvl : vs.validators with
  | nil => rw [hvl] at hh; simp at hh
  | cons a rest =>
      rw [hvl] at hh
      simp only [List.head?_cons, Option.some.injEq] at hh
      subst hh
      simp [GetByAddress, hvl, findValidator]

/-- C4 counterexample: in the set built from addresses 0 and 5 the member at
index 0 is the zero address; with lastProposer that member and round 0,
RoundRobin takes the zero-identity branch and returns the member at index 0,
not the member at index 1 mod Size. -/
theorem round_robin_zero_member_counterexample :
    (newDefaultSet [0, 5] .RoundRobin).validators.head? = some (New 0) ∧
    roundRobinSelector (newDefaultSet [0, 5] .RoundRobin) 0 0 = some (New 0) ∧
    GetByIndex (newDefaultSet [0, 5] .RoundRobin)
      (1 % Size (newDefaultSet [0, 5] .RoundRobin)) = some (New 5) ∧
    roundRobinSelector (newDefaultSet [0, 5] .RoundRobin) 0 0 ≠
      GetByIndex (newDefaultSet [0, 5] .RoundRobin)
        (1 % Size (newDefaultSet [0, 5] .RoundRobin)) := by
  decide

/-- C4 (amended): on a non-empty set, RoundRobin picks index seed mod Size
with seed = round when lastProposer is the zero identity and
seed = index + round + 1 when lastProposer is a member at first index i
(uint64 arithmetic not overflowing); Sticky is identical without the + 1.
Hence with round 0 and lastProposer the member at index 0, provided that
member's address is not the zero identity, Sticky returns it again while
RoundRobin returns the member at index 1 mod Size. -/
theorem round_robin_sticky_selection (vs : DefaultSet) (hne : vs.validators ≠ [])
    (round : Nat) :
    (roundRobinSelector vs 0 round = GetByIndex vs (round % Size vs)
      ∧ stickySelector vs 0 round = GetByIndex vs (round % Size vs))
    ∧ (∀ lp i v, lp ≠ 0 → GetByAddress vs lp = some (i, v) → i + round + 1 < U64 →
        roundRobinSelector vs lp round = GetByIndex vs ((i + round + 1) % Size vs)
        ∧ stickySelector vs lp round = GetByIndex vs ((i + round) % Size vs))
    ∧ (∀ v0, vs.validators.head? = some v0 → v0.address ≠ 0 →
        stickySelector vs v0.address 0 = some v0
        ∧ roundRobinSelector vs v0.address 0 = GetByIndex vs (1 % Size vs)) := by
  refine ⟨selector_zero_case vs hne round, ?_, ?_⟩
  · intro lp i v hlp hfind hov
    exact selector_member_case vs hne round lp i v hlp hfind hov
  · intro v0 hh hv0
    have hfind := head_getByAddress vs v0 hh
    have hov : 0 + 0 + 1 < U64 := by decide
    have h := selector_member_case vs hne 0 v0.address 0 v0 hv0 hfind hov
    refine ⟨?_, by simpa using h.1⟩
    rw [h.2]
    simp [GetByIndex, Size_ne_zero hne, ← List.head?_eq_getElem?, hh]

/-- C4 witness: the selection formulas evaluated on the concrete set from
addresses 10, 20, 30 with lastProposer 10 (the member at index 0) and
round 0. -/
theorem round_robin_sticky_selection_witness :
    stickySelector (newDefaultSet [10, 20, 30] .RoundRobin) 10 0 = some (New 10) ∧
    roundRobinSelector (newDefaultSet [10, 20, 30] .RoundRobin) 10 0 =
      GetByIndex (newDefaultSet [10, 20, 30] .RoundRobin)
        (1 % Size (newDefaultSet [10, 20, 30] .RoundRobin)) :=
  (round_robin_sticky_selection (newDefaultSet [10, 20, 30] .RoundRobin)
      (by decide) 0).2.2 (New 10) (by decide) (by decide)

/-- C10 counterexample: with the set built from addresses 0 and 5, a
non-zero non-member lastProposer 7 makes RoundRobin pick index round + 1,
but with lastProposer the member at index 0 (the zero address) RoundRobin
takes the zero-identity branch and picks index round, so the results
differ. -/
theorem unknown_proposer_counterexample :
    GetByAddress (newDefaultSet [0, 5] .RoundRobin) 7 = none ∧
    (newDefaultSet [0, 5] .RoundRobin).validators.head? = some (New 0) ∧
    roundRobinSelector (newDefaultSet [0, 5] .RoundRobin) 7 0 ≠
      roundRobinSelector (newDefaultSet [0, 5] .RoundRobin) 0 0 := by
  decide

/-- C10 (amended): when lastProposer is non-zero and not a member, its
offset is 0, so RoundRobin picks index (round + 1) mod Size and Sticky picks
round mod Size; these agree with the results for lastProposer at index 0
provided the member at index 0 does not carry the zero address. -/
theorem unknown_proposer_offset_zero (vs : DefaultSet) (hne : vs.validators ≠ [])
    (lp : Address) (hlp : lp ≠ 0) (hmiss : GetByAddress vs lp = none)
    (round : Nat) (hov : round + 1 < U64) :
    roundRobinSelector vs lp round = GetByIndex vs ((round + 1) % Size vs)
    ∧ stickySelector vs lp round = GetByIndex vs (round % Size vs)
    ∧ (∀ v0, vs.validators.head? = some v0 → v0.address ≠ 0 →
        roundRobinSelector vs lp round = roundRobinSelector vs v0.address round
        ∧ stickySelector vs lp round = stickySelector vs v0.address round) := by
  have hm := selector_miss_case vs hne round lp hlp hmiss hov
  refine ⟨hm.1, hm.2, ?_⟩
  intro v0 hh hv0
  have hfind := head_getByAddress vs v0 hh
  have hov' : 0 + round + 1 < U64 := by omega
  have h := selector_member_case vs hne round v0.address 0 v0 hv0 hfind hov'
  constructor
  · rw [hm.1, h.1]
    simp
  · rw [hm.2, h.2]
    simp

/-- C10 witness: the miss-case selection evaluated on the concrete set from
addresses 10, 20, 30 with the non-member lastProposer 7 and round 0. -/
theorem unknown_proposer_offset_zero_witness :
    roundRobinSelector (newDefaultSet [10, 20, 30] .RoundRobin) 7 0 =
      GetByIndex (newDefaultSet [10, 20, 30] .RoundRobin)
        ((0 + 1) % Size (newDefaultSet [10, 20, 30] .RoundRobin)) ∧
    stickySelector (newDefaultSet [10, 20, 30] .RoundRobin) 7 0 =
      GetByIndex (newDefaultSet [10, 20, 30] .RoundRobin)
        (0 % Size (newDefaultSet [10, 20, 30] .RoundRobin)) :=
  ⟨(unknown_proposer_offset_zero (newDefaultSet [10, 20, 30] .RoundRobin) (by decide)
      7 (by decide) (by decide) 0 (by decide)).1,
   (unknown_proposer_offset_zero (newDefaultSet [10, 20, 30] .RoundRobin) (by decide)
      7 (by decide) (by decide) 0 (by decide)).2.1⟩

/-! Sorting machinery shared by the invariant, copy, comparison and quorum
theorems. -/

lemma sortValidators_perm (l : List Validator) : List.Perm (sortValidators l) l :=
  List.perm_insertionSort validatorLE l

lemma sortValidators_sorted (l : List Validator) :
    List.Sorted validatorLE (sortValidators l) :=
  List.sorted_insertionSort validatorLE l

lemma sortValidators_eq_of_sorted (l : List Validator)
    (h : List.Sorted validatorLE l) : sortValidators l = l :=
  List.eq_of_perm_of_sorted (sortValidators_perm l) (sortValidators_sorted l) h

lemma sortValidators_eq_of_perm {l₁ l₂ : List Validator} (h : List.Perm l₁ l₂) :
    sortValidators l₁ = sortValidators l₂ :=
  List.eq_of_perm_of_sorted
    ((sortValidators_perm l₁).trans (h.trans (sortValidators_perm l₂).symm))
    (sortValidators_sorted l₁) (sortValidators_sorted l₂)

lemma map_address_map_New (addrs : List Address) :
    (addrs.map New).map (·.address) = addrs := by
  induction addrs with
  | nil => rfl
  | cons a rest ih => simp [New, ih]

lemma map_New_addressList (l : List Validator) : (l.map (·.address)).map New = l := by
  induction l with
  | nil => rfl
  | cons v rest ih => cases v; simp [New, ih]

lemma strict_of_sorted_nodup {l : List Validator}
    (hs : List.Sorted validatorLE l) (hn : (l.map (·.address)).Nodup) :
    (l.map (·.address)).Sorted (· < ·) := by
  have hne : List.Pairwise (fun v w : Validator => v.address ≠ w.address) l :=
    List.pairwise_map.mp hn
  have hlt : List.Pairwise (fun v w : Validator => v.address < w.address) l := by
    have hand := hs.and hne
    exact hand.imp fun hp => lt_of_le_of_ne hp.1 hp.2
  exact List.pairwise_map.mpr hlt

lemma sorted_of_strict {l : List Validator}
    (h : (l.map (·.address)).Sorted (· < ·)) : List.Sorted validatorLE l := by
  have := List.pairwise_map.mp h
  exact this.imp fun hp => le_of_lt hp

lemma nodup_of_strict {l : List Address} (h : l.Sorted (· < ·)) : l.Nodup :=
  h.imp fun hp => Nat.ne_of_lt hp

/-- The stored validators of a freshly-built set. -/
lemma newDefaultSet_validators (addrs : List Address) (p : SelectProposerPolicy) :
    (newDefaultSet addrs p).validators = sortValidators (addrs.map New) := rfl

lemma newDefaultSet_strict (addrs : List Address) (h : addrs.Nodup)
    (p : SelectProposerPolicy) :
    StrictAscending (AddressList (newDefaultSet addrs p)) := by
  unfold StrictAscending AddressList
  rw [newDefaultSet_validators]
  refine strict_of_sorted_nodup (sortValidators_sorted _) ?_
  have hperm : List.Perm ((sortValidators (addrs.map New)).map (·.address))
      ((addrs.map New).map (·.address)) := (sortValidators_perm _).map _
  rw [map_address_map_New] at hperm
  exact hperm.nodup_iff.mpr h

lemma any_address_eq_false {l : List Validator} {a : Address}
    (h : (l.any fun v => v.address == a) = false) : a ∉ l.map (·.address) := by
  intro hmem
  obtain ⟨v, hv, hva⟩ := List.mem_map.mp hmem
  have : (l.any fun v => v.address == a) = true :=
    List.any_eq_true.mpr ⟨v, hv, by simp [hva]⟩
  simp [this] at h

lemma any_address_eq_true {l : List Validator} {a : Address}
    (h : (l.any fun v => v.address == a) = true) : a ∈ l.map (·.address) := by
  obtain ⟨v, hv, hva⟩ := List.any_eq_true.mp h
  exact List.mem_map.mpr ⟨v, hv, by simpa using hva⟩

lemma addValidator_strict {vs : DefaultSet} (h : StrictAscending (AddressList vs))
    (a : Address) : StrictAscending (AddressList (AddValidator vs a).1) := by
  unfold AddValidator addValidatorList
  cases hany : (vs.validators.any fun v => v.address == a) with
  | true => simpa [hany] using h
  | false =>
      have hnotmem : a ∉ vs.validators.map (·.address) := any_address_eq_false hany
      simp only [hany, Bool.false_eq_true, if_neg, ite_false]
      unfold StrictAscending AddressList at h ⊢
      refine strict_of_sorted_nodup (sortValidators_sorted _) ?_
      have hperm : List.Perm
          ((sortValidators (vs.validators ++ [New a])).map (·.address))
          ((vs.validators ++ [New a]).map (·.address)) :=
        (sortValidators_perm _).map _
      rw [hperm.nodup_iff]
      simp only [List.map_append, List.map_cons, List.map_nil]
      rw [List.nodup_append]
      refine ⟨nodup_of_strict h, List.nodup_singleton _, ?_⟩
      simp only [List.disjoint_singleton, List.mem_map, not_exists, not_and, New]
      intro x hx hxa
      exact hnotmem (List.mem_map.mpr ⟨x, hx, hxa⟩)

lemma removeValidator_strict {vs : DefaultSet} (h : StrictAscending (AddressList vs))
    (a : Address) : StrictAscending (AddressList (RemoveValidator vs a).1) := by
  unfold RemoveValidator removeValidatorList
  cases hany : (vs.validators.any fun v => v.address == a) with
  | false => simpa [hany] using h
  | true =>
      simp only [hany, if_pos]
      unfold StrictAscending AddressList at h ⊢
      have hsub : List.Sublist (vs.validators.eraseP fun v => v.address == a)
          vs.validators := List.eraseP_sublist _
      exact List.Pairwise.sublist (hsub.map _) h

lemma applyOps_strict {vs : DefaultSet} (h : StrictAscending (AddressList vs))
    (ops : List MutOp) : StrictAscending (AddressList (applyOps vs ops)) := by
  induction ops generalizing vs with
  | nil => exact h
  | cons op rest ih =>
      cases op with
      | add a => exact ih (addValidator_strict h a)
      | remove a => exact ih (removeValidator_strict h a)

/-- C3 counterexample: the constructor does not deduplicate, so the set
built from the duplicated address list 5, 5 has the non-strictly-ascending
AddressList 5, 5. -/
theorem sort_invariant_dup_counterexample :
    AddressList (newDefaultSet [5, 5] .RoundRobin) = [5, 5] ∧
    ¬ StrictAscending (AddressList (newDefaultSet [5, 5] .RoundRobin)) := by
  decide

/-- C3 (amended): for every duplicate-free input address list the
constructed set's AddressList() is strictly ascending, and this is preserved
by every sequence of AddValidator and RemoveValidator calls. -/
theorem sort_invariant (addrs : List Address) (h : addrs.Nodup)
    (p : SelectProposerPolicy) (ops : List MutOp) :
    StrictAscending (AddressList (newDefaultSet addrs p)) ∧
    StrictAscending (AddressList (applyOps (newDefaultSet addrs p) ops)) :=
  ⟨newDefaultSet_strict addrs h p, applyOps_strict (newDefaultSet_strict addrs h p) ops⟩

/-- C3 witness: the sort invariant evaluated on the concrete list 2, 1 with
an add and a remove applied. -/
theorem sort_invariant_witness :
    StrictAscending (AddressList (newDefaultSet [2, 1] .RoundRobin)) ∧
    StrictAscending (AddressList
      (applyOps (newDefaultSet [2, 1] .RoundRobin) [.add 3, .remove 1])) :=
  ⟨(sort_invariant [2, 1] (by decide) .RoundRobin []).1,
   (sort_invariant [2, 1] (by decide) .RoundRobin [.add 3, .remove 1]).2⟩

lemma Copy_validators (vs : DefaultSet) :
    (Copy vs).validators = sortValidators vs.validators := by
  show sortValidators ((vs.validators.map (·.address)).map New) = sortValidators vs.validators
  rw [map_New_addressList]

/-- C7: Copy() rebuilds a new set from the snapshot AddressList() and the
policy: the policy is preserved, the membership is the same (equal as lists
once the original is sorted), the cached proposer of the original is ignored
and the copy's proposer is recomputed as the first sorted member, and every
mutation of the copy is a function of that snapshot alone — in this
state-passing embedding the original value is never touched by operations
on the copy. -/
theorem copy_independence (vs : DefaultSet) :
    (Copy vs).policy = vs.policy
    ∧ Copy vs = newDefaultSet (AddressList vs) vs.policy
    ∧ List.Perm (AddressList (Copy vs)) (AddressList vs)
    ∧ Size (Copy vs) = Size vs
    ∧ (∀ p, Copy { vs with proposer := p } = Copy vs)
    ∧ (StrictAscending (AddressList vs) → AddressList (Copy vs) = AddressList vs)
    ∧ (Copy vs).proposer = (sortValidators vs.validators).head?
    ∧ (∀ ops, applyOps (Copy vs) ops = applyOps (newDefaultSet (AddressList vs) vs.policy) ops) := by
  have hperm : List.Perm (AddressList (Copy vs)) (AddressList vs) := by
    unfold AddressList
    rw [Copy_validators]
    exact (sortValidators_perm _).map _
  refine ⟨rfl, rfl, hperm, ?_, fun p => rfl, ?_, ?_, fun ops => rfl⟩
  · have := hperm.length_eq
    simpa [AddressList, Size] using this
  · intro h
    unfold AddressList
    rw [Copy_validators, sortValidators_eq_of_sorted _ (sorted_of_strict h)]
  · show (sortValidators ((AddressList vs).map New))[0]? = _
    rw [AddressList, map_New_addressList, List.head?_eq_getElem?]

/-- C7 witness: copy independence evaluated on a concrete sorted set. -/
theorem copy_independence_witness :
    StrictAscending (AddressList (newDefaultSet [1, 2, 3] .Sticky)) ∧
    AddressList (Copy (newDefaultSet [1, 2, 3] .Sticky)) =
      AddressList (newDefaultSet [1, 2, 3] .Sticky) :=
  ⟨by decide, (copy_independence (newDefaultSet [1, 2, 3] .Sticky)).2.2.2.2.2.1 (by decide)⟩

lemma findValidator_isSome (l : List Validator) (a : Address) :
    ∀ i : Nat, (findValidator l a i).isSome = true ↔ a ∈ l.map (·.address) := by
  induction l with
  | nil => intro i; simp [findValidator]
  | cons v rest ih =>
      intro i
      by_cases hva : v.address = a
      · simp [findValidator, hva]
      · rw [List.map_cons, List.mem_cons]
        simp only [findValidator, hva, if_false, ite_false]
        rw [ih (i + 1)]
        constructor
        · exact fun h => Or.inr h
        · rintro (h | h)
          · exact absurd h.symm hva
          · exact h

lemma getByAddress_isSome_iff (vs : DefaultSet) (a : Address) :
    (GetByAddress vs a).isSome = true ↔ a ∈ AddressList vs :=
  findValidator_isSome vs.validators a 0

lemma AddressList_length (vs : DefaultSet) : (AddressList vs).length = Size vs :=
  List.length_map _ _

lemma participantsNumber_self (vs : DefaultSet) :
    ParticipantsNumber vs (AddressList vs) = Size vs := by
  unfold ParticipantsNumber
  rw [List.countP_eq_length.mpr fun a ha => (getByAddress_isSome_iff vs a).mpr ha]
  exact AddressList_length vs

lemma Cmp_true_iff (A B : DefaultSet) :
    Cmp A B = true ↔
      (ParticipantsNumber A (AddressList B) = Size A ∧
       ParticipantsNumber A (AddressList B) = Size B) := by
  by_cases h1 : ParticipantsNumber A (AddressList B) = Size A
  · by_cases h2 : ParticipantsNumber A (AddressList B) = Size B
    · simp [Cmp, h1, h2]
    · simp [Cmp, h1, h2]
  · simp [Cmp, h1]

lemma Cmp_of_perm_lists (l₁ l₂ : List Address) (p₁ p₂ : SelectProposerPolicy)
    (h : List.Perm l₁ l₂) : Cmp (newDefaultSet l₁ p₁) (newDefaultSet l₂ p₂) = true := by
  have hv : (newDefaultSet l₂ p₂).validators = (newDefaultSet l₁ p₁).validators := by
    rw [newDefaultSet_validators, newDefaultSet_validators]
    exact (sortValidators_eq_of_perm (h.map New)).symm
  have hAL : AddressList (newDefaultSet l₂ p₂) = AddressList (newDefaultSet l₁ p₁) := by
    unfold AddressList
    rw [hv]
  rw [Cmp_true_iff, hAL, participantsNumber_self]
  exact ⟨rfl, by unfold Size; rw [hv]⟩

lemma Cmp_false_of_membership_diff (A B : DefaultSet)
    (hA : (AddressList A).Nodup) (hB : (AddressList B).Nodup)
    (hx : ∃ x, (x ∈ AddressList A ∧ x ∉ AddressList B) ∨
               (x ∈ AddressList B ∧ x ∉ AddressList A)) :
    Cmp A B = false := by
  obtain ⟨x, hx⟩ := hx
  cases hc : Cmp A B with
  | false => rfl
  | true =>
      exfalso
      obtain ⟨h1, h2⟩ := (Cmp_true_iff A B).mp hc
      have hsub : AddressList B ⊆ AddressList A := by
        intro a ha
        have hlen : List.countP (fun b => (GetByAddress A b).isSome) (AddressList B) =
            (AddressList B).length := by
          show ParticipantsNumber A (AddressList B) = (AddressList B).length
          rw [h2, AddressList_length]
        have hall := List.countP_eq_length.mp hlen a ha
        exact (getByAddress_isSome_iff A a).mp hall
      have hsubF : (AddressList B).toFinset ⊆ (AddressList A).toFinset := by
        intro y hy
        exact List.mem_toFinset.mpr (hsub (List.mem_toFinset.mp hy))
      have hcardA : (AddressList A).toFinset.card = Size A := by
        rw [List.toFinset_card_of_nodup hA, AddressList_length]
      have hcardB : (AddressList B).toFinset.card = Size B := by
        rw [List.toFinset_card_of_nodup hB, AddressList_length]
      have hfe : (AddressList B).toFinset = (AddressList A).toFinset :=
        Finset.eq_of_subset_of_card_le hsubF (by rw [hcardA, hcardB, ← h1, ← h2])
      rcases hx with ⟨hxa, hxb⟩ | ⟨hxb, hxa⟩
      · exact hxb (List.mem_toFinset.mp (hfe ▸ List.mem_toFinset.mpr hxa))
      · exact hxa (List.mem_toFinset.mp (hfe ▸ List.mem_toFinset.mpr hxb))

/-- C8 counterexample: the constructor keeps duplicates, so the set A built
from 1, 2 and the set B built from 1, 1 have equal sizes and every entry of
B's address list is a member of A; Cmp(A, B) is true although A contains
address 2 which B lacks. -/
theorem Cmp_dup_counterexample :
    Cmp (newDefaultSet [1, 2] .RoundRobin) (newDefaultSet [1, 1] .RoundRobin) = true ∧
    (2 : Address) ∈ AddressList (newDefaultSet [1, 2] .RoundRobin) ∧
    (2 : Address) ∉ AddressList (newDefaultSet [1, 1] .RoundRobin) := by
  decide

/-- C8 (amended): Cmp(A, B) is true iff ParticipantsNumber(B.AddressList())
equals both sizes; it is true for two sets constructed from the same address
list regardless of construction order; and for sets whose memberships are
duplicate-free it is false whenever either set contains an address the other
lacks. -/
theorem Cmp_spec :
    (∀ A B : DefaultSet, Cmp A B = true ↔
      (ParticipantsNumber A (AddressList B) = Size A ∧
       ParticipantsNumber A (AddressList B) = Size B))
    ∧ (∀ (l₁ l₂ : List Address) (p₁ p₂ : SelectProposerPolicy), List.Perm l₁ l₂ →
        Cmp (newDefaultSet l₁ p₁) (newDefaultSet l₂ p₂) = true)
    ∧ (∀ A B : DefaultSet, (AddressList A).Nodup → (AddressList B).Nodup →
        (∃ x, (x ∈ AddressList A ∧ x ∉ AddressList B) ∨
              (x ∈ AddressList B ∧ x ∉ AddressList A)) →
        Cmp A B = false) :=
  ⟨Cmp_true_iff, Cmp_of_perm_lists, Cmp_false_of_membership_diff⟩

/-- C8 witness: Cmp evaluated on concretely constructed sets — equal sets
built in different orders compare true, and duplicate-free sets differing in
one address compare false. -/
theorem Cmp_spec_witness :
    Cmp (newDefaultSet [1, 2] .Sticky) (newDefaultSet [2, 1] .Sticky) = true ∧
    Cmp (newDefaultSet [1, 2] .Sticky) (newDefaultSet [1, 3] .Sticky) = false :=
  ⟨Cmp_spec.2.1 [1, 2] [2, 1] .Sticky .Sticky (by decide),
   Cmp_spec.2.2 (newDefaultSet [1, 2] .Sticky) (newDefaultSet [1, 3] .Sticky)
     (by decide) (by decide) ⟨2, Or.inl ⟨by decide, by decide⟩⟩⟩

lemma length_filter_compl (cs : List Address) (l : List Validator) :
    (l.filter fun v => decide (v.address ∈ cs)).length +
      (l.filter fun v => decide (v.address ∉ cs)).length = l.length := by
  have hq : (l.filter fun v => decide (v.address ∉ cs)) =
      (l.filter fun v => !(decide (v.address ∈ cs))) :=
    List.filter_congr fun v _ => by simp
  rw [hq]
  exact (List.length_eq_length_filter_add (fun (v : Validator) => decide (v.address ∈ cs))).symm

lemma removeSealsList_count (cs : List Address) : ∀ l : List Validator,
    (removeSealsList l cs).2 + (removeSealsList l cs).1.length = l.length := by
  induction cs with
  | nil => intro l; simp [removeSealsList]
  | cons a rest ih =>
      intro l
      cases hany : (l.any fun v => v.address == a) with
      | true =>
          have hr : removeValidatorList l a = (l.eraseP (fun v => v.address == a), true) := by
            unfold removeValidatorList
            rw [if_pos hany]
          obtain ⟨v, hv, hva⟩ := List.any_eq_true.mp hany
          have hlen : (l.eraseP (fun v => v.address == a)).length = l.length - 1 :=
            List.length_eraseP_of_mem hv hva
          have hpos : 0 < l.length := List.length_pos.mpr (List.ne_nil_of_mem hv)
          have hih := ih (l.eraseP (fun v => v.address == a))
          simp only [removeSealsList, hr, if_true, ite_true]
          omega
      | false =>
          have hr : removeValidatorList l a = (l, false) := by
            unfold removeValidatorList
            rw [if_neg (by simp [hany])]
          have hih := ih l
          simp only [removeSealsList, hr, Bool.false_eq_true, if_false, ite_false]
          omega

lemma eraseP_eq_filter_of_nodup (a : Address) : ∀ l : List Validator,
    (l.map (·.address)).Nodup → a ∈ l.map (·.address) →
    l.eraseP (fun v => v.address == a) = l.filter (fun v => decide (v.address ≠ a)) := by
  intro l
  induction l with
  | nil => intro _ hm; simp at hm
  | cons v rest ih =>
      intro hnd hm
      rw [List.map_cons, List.nodup_cons] at hnd
      by_cases h : v.address = a
      · have hrest : ∀ w ∈ rest, w.address ≠ a := by
          intro w hw hwa
          exact hnd.1 (h ▸ hwa ▸ List.mem_map.mpr ⟨w, hw, rfl⟩)
        have hb : (v.address == a) = true := by simp [h]
        have hd : (decide (v.address ≠ a)) = false := by simp [h]
        rw [List.eraseP_cons, List.filter_cons, hb, hd]
        simp only [cond_true, Bool.false_eq_true, if_false, ite_false]
        exact (List.filter_eq_self.mpr fun w hw => by simp [hrest w hw]).symm
      · have hm' : a ∈ rest.map (·.address) := by
          rcases List.mem_cons.mp hm with h' | h'
          · exact absurd h'.symm h
          · exact h'
        have hb : (v.address == a) = false := by simp [h]
        have hd : (decide (v.address ≠ a)) = true := by simp [h]
        rw [List.eraseP_cons, List.filter_cons, hb, hd]
        simp only [cond_false, if_true, ite_true]
        rw [ih hnd.2 hm']

lemma removeValidatorList_eq (l : List Validator) (hnd : (l.map (·.address)).Nodup)
    (a : Address) :
    removeValidatorList l a =
      (l.filter (fun v => decide (v.address ≠ a)), decide (a ∈ l.map (·.address))) := by
  cases hany : (l.any fun v => v.address == a) with
  | true =>
      have hm := any_address_eq_true hany
      unfold removeValidatorList
      rw [if_pos hany, eraseP_eq_filter_of_nodup a l hnd hm]
      simp [hm]
  | false =>
      have hm := any_address_eq_false hany
      unfold removeValidatorList
      rw [if_neg (by simp [hany])]
      have : l.filter (fun v => decide (v.address ≠ a)) = l :=
        List.filter_eq_self.mpr fun w hw => by
          simp only [decide_eq_true_eq, ne_eq]
          intro hwa
          exact hm (List.mem_map.mpr ⟨w, hw, hwa⟩)
      rw [this]
      simp [hm]

lemma nodup_filter_map (l : List Validator) (p : Validator → Bool)
    (hnd : (l.map (·.address)).Nodup) : ((l.filter p).map (·.address)).Nodup :=
  List.Nodup.sublist ((l.filter_sublist).map _) hnd

lemma removeSealsList_remaining (cs : List Address) : ∀ l : List Validator,
    (l.map (·.address)).Nodup →
    (removeSealsList l cs).1 = l.filter (fun v => decide (v.address ∉ cs)) := by
  induction cs with
  | nil =>
      intro l _
      simp [removeSealsList]
  | cons a rest ih =>
      intro l hnd
      simp only [removeSealsList, removeValidatorList_eq l hnd a]
      rw [ih _ (nodup_filter_map l _ hnd)]
      rw [List.filter_filter]
      refine List.filter_congr ?_
      intro v _
      by_cases h1 : v.address = a <;> by_cases h2 : v.address ∈ rest <;>
        simp [h1, h2, List.mem_cons]

lemma Copy_addressList_perm (vs : DefaultSet) :
    List.Perm (AddressList (Copy vs)) (AddressList vs) := by
  unfold AddressList
  rw [Copy_validators]
  exact (sortValidators_perm _).map _

lemma Copy_length (vs : DefaultSet) : (Copy vs).validators.length = Size vs := by
  rw [Copy_validators]
  exact (sortValidators_perm _).length_eq

lemma Copy_nodup (vs : DefaultSet) (h : (AddressList vs).Nodup) :
    ((Copy vs).validators.map (·.address)).Nodup :=
  ((Copy_addressList_perm vs).nodup_iff).mpr h

lemma length_filter_map_addr (p : Address → Bool) (l : List Validator) :
    ((l.map (·.address)).filter p).length = (l.filter (fun v => p v.address)).length := by
  induction l with
  | nil => rfl
  | cons v rest ih =>
      rw [List.map_cons, List.filter_cons, List.filter_cons]
      cases hp : p v.address <;> simp [hp, ih]

/-- C1: CheckQuorum removes each committer from an independent copy; under
the duplicate-free membership invariant, validSeal counts exactly the
members whose address occurs among the committers (duplicate committers and
non-members add nothing), the copy shrinks by exactly validSeal, and the
ErrInvalidParticipant error is returned iff validSeal <= Q() evaluated on
the shrunken copy.  The original set is untouched: in this embedding
CheckQuorum is a pure function reading only a copy. -/
theorem CheckQuorum_spec (vs : DefaultSet) (h : (AddressList vs).Nodup)
    (committers : List Address) :
    ((removeSealsList (Copy vs).validators committers).2 =
      ((AddressList vs).filter fun a => decide (a ∈ committers)).length)
    ∧ ((removeSealsList (Copy vs).validators committers).1.length =
        Size vs - (removeSealsList (Copy vs).validators committers).2)
    ∧ (CheckQuorum vs committers = some .ErrInvalidParticipant ↔
        ((removeSealsList (Copy vs).validators committers).2 : Int) ≤
          Qn (removeSealsList (Copy vs).validators committers).1.length)
    ∧ (CheckQuorum vs committers = none ↔
        Qn (removeSealsList (Copy vs).validators committers).1.length <
          ((removeSealsList (Copy vs).validators committers).2 : Int)) := by
  have hnd : ((Copy vs).validators.map (·.address)).Nodup := Copy_nodup vs h
  have hcount := removeSealsList_count committers (Copy vs).validators
  have hrem := removeSealsList_remaining committers (Copy vs).validators hnd
  have hcompl := length_filter_compl committers (Copy vs).validators
  have hseal : (removeSealsList (Copy vs).validators committers).2 =
      ((Copy vs).validators.filter fun v => decide (v.address ∈ committers)).length := by
    rw [hrem] at hcount
    omega
  have hc1 : (removeSealsList (Copy vs).validators committers).2 =
      ((AddressList vs).filter fun a => decide (a ∈ committers)).length := by
    rw [hseal, ← length_filter_map_addr (fun a => decide (a ∈ committers))]
    exact (((Copy_addressList_perm vs).filter _).length_eq).symm ▸ rfl
  have hlen : (Copy vs).validators.length = Size vs := Copy_length vs
  refine ⟨hc1, by omega, ?_, ?_⟩ <;>
  · have hCQ : CheckQuorum vs committers =
        if ((removeSealsList (Copy vs).validators committers).2 : Int) ≤
            Qn (removeSealsList (Copy vs).validators committers).1.length
        then some .ErrInvalidParticipant else none := rfl
    by_cases hle : ((removeSealsList (Copy vs).validators committers).2 : Int) ≤
        Qn (removeSealsList (Copy vs).validators committers).1.length
    · rw [hCQ, if_pos hle]
      simp [hle, not_lt.mpr hle]
    · rw [hCQ, if_neg hle]
      simp [hle, not_le.mp hle]

/-- C1 witness: CheckQuorum evaluated on the four-member set 1, 2, 3, 4 —
three distinct member committers shrink the copy to one member, whose Q is
1, so 3 <= 1 fails and no error is returned; a single committer leaves
Q = 3 on the remaining three members, so 1 <= 3 yields
ErrInvalidParticipant. -/
theorem CheckQuorum_spec_witness :
    CheckQuorum (newDefaultSet [1, 2, 3, 4] .RoundRobin) [1, 2, 3] = none ∧
    CheckQuorum (newDefaultSet [1, 2, 3, 4] .RoundRobin) [1] =
      some .ErrInvalidParticipant :=
  ⟨(CheckQuorum_spec (newDefaultSet [1, 2, 3, 4] .RoundRobin) (by decide)
      [1, 2, 3]).2.2.2.mpr (by decide),
   (CheckQuorum_spec (newDefaultSet [1, 2, 3, 4] .RoundRobin) (by decide)
      [1]).2.2.1.mpr (by decide)⟩

/-- C1 counterexample: on the set built from the duplicated list 1, 1 (the
constructor keeps duplicates) the committer list 1, 1 yields validSeal = 2
while the single committer 1 yields validSeal = 1 — the duplicate committer
removed the second stored copy and was counted, contradicting the claim that
duplicate committers add nothing on every validator set. -/
theorem CheckQuorum_dup_counterexample :
    (removeSealsList (Copy (newDefaultSet [1, 1] .RoundRobin)).validators [1, 1]).2 = 2 ∧
    (removeSealsList (Copy (newDefaultSet [1, 1] .RoundRobin)).validators [1]).2 = 1 := by
  decide
